import Mathlib

/-!
Verification of the training / hyperparameter-search harness in
`train_optuna.py` (nanoGPT WSI fork).  Each Python function that a claim
refers to is embedded as an executable Lean definition over lists,
integers, rationals (for float comparisons whose exact rounding is
irrelevant) and reals (for the cosine schedule).  Fallible code paths
(Python exceptions) are embedded with `Option`/`Except`.
-/

namespace TrainOptuna

/-! ## Learning-rate schedule (`get_lr`, train_optuna.py lines 193-204)

`warmup_iters` and `lr_decay_iters` are integer configuration values,
the iteration counter `it` is a natural number; `learning_rate` and
`min_lr` are floats, embedded as reals because the schedule uses `math.cos`.
-/

/-- The `decay_ratio` value computed on the cosine branch of `get_lr`:
`(it - warmup_iters) / (lr_decay_iters - warmup_iters)`, in real arithmetic. -/
noncomputable def decayRatio (warmup_iters lr_decay_iters it : ℕ) : ℝ :=
  ((it : ℝ) - (warmup_iters : ℝ)) / ((lr_decay_iters : ℝ) - (warmup_iters : ℝ))

/-- Embedding of `get_lr`: linear warmup below `warmup_iters`, constant
`min_lr` above `lr_decay_iters`, cosine decay in between.  The assertion
`0 <= decay_ratio <= 1` of the source is proved separately
(`decay_ratio_assert_safe`) rather than embedded as a failure case. -/
noncomputable def get_lr (warmup_iters lr_decay_iters : ℕ) (learning_rate min_lr : ℝ) (it : ℕ) : ℝ :=
  if it < warmup_iters then learning_rate * it / warmup_iters
  else if lr_decay_iters < it then min_lr
  else
    let coeff : ℝ :=
      0.5 * (1.0 + Real.cos (Real.pi * decayRatio warmup_iters lr_decay_iters it))
    min_lr + coeff * (learning_rate - min_lr)

/-- C8: the assertion `0 <= decay_ratio <= 1` inside `get_lr` never fails:
whenever `warmup_iters < lr_decay_iters` and `warmup_iters ≤ it ≤
lr_decay_iters` (the only iterations that reach the cosine branch), the
ratio lies in `[0, 1]`. -/
theorem decay_ratio_assert_safe (w d it : ℕ) (hwd : w < d) (h₁ : w ≤ it) (h₂ : it ≤ d) :
    0 ≤ decayRatio w d it ∧ decayRatio w d it ≤ 1 := by
  have hden : (0 : ℝ) < (d : ℝ) - (w : ℝ) := by
    have : (w : ℝ) < (d : ℝ) := by exact_mod_cast hwd
    linarith
  have hnum : (0 : ℝ) ≤ (it : ℝ) - (w : ℝ) := by
    have : (w : ℝ) ≤ (it : ℝ) := by exact_mod_cast h₁
    linarith
  constructor
  · exact div_nonneg hnum hden.le
  · rw [decayRatio, div_le_one hden]
    have : (it : ℝ) ≤ (d : ℝ) := by exact_mod_cast h₂
    linarith

/-- Witness for `decay_ratio_assert_safe` at `warmup_iters = 2`,
`lr_decay_iters = 10`, `it = 7`. -/
theorem decay_ratio_assert_safe_witness :
    0 ≤ decayRatio 2 10 7 ∧ decayRatio 2 10 7 ≤ 1 :=
  decay_ratio_assert_safe 2 10 7 (by norm_num) (by norm_num) (by norm_num)

/-- C1: `get_lr` is the piecewise cosine-with-warmup schedule.  Given
`warmup_iters < lr_decay_iters` and `min_lr ≤ learning_rate`: below the
warmup threshold it is the linear ramp `learning_rate * it / warmup_iters`;
above `lr_decay_iters` it is `min_lr`; in between it equals
`min_lr + 0.5 * (1 + cos (π * (it - warmup)/(decay - warmup))) *
(learning_rate - min_lr)`, a value in `[min_lr, learning_rate]`. -/
theorem get_lr_piecewise (w d : ℕ) (lr minlr : ℝ) (it : ℕ)
    (hwd : w < d) (hml : minlr ≤ lr) :
    (it < w → get_lr w d lr minlr it = lr * it / w) ∧
    (d < it → get_lr w d lr minlr it = minlr) ∧
    (w ≤ it → it ≤ d →
      get_lr w d lr minlr it =
        minlr + 0.5 * (1.0 + Real.cos (Real.pi * decayRatio w d it)) * (lr - minlr) ∧
      minlr ≤ get_lr w d lr minlr it ∧ get_lr w d lr minlr it ≤ lr) := by
  refine ⟨fun h => ?_, fun h => ?_, fun h₁ h₂ => ?_⟩
  · simp [get_lr, h]
  · have hnw : ¬ it < w := by omega
    simp [get_lr, hnw, h]
  · have hnw : ¬ it < w := by omega
    have hnd : ¬ d < it := by omega
    have hval : get_lr w d lr minlr it =
        minlr + 0.5 * (1.0 + Real.cos (Real.pi * decayRatio w d it)) * (lr - minlr) := by
      simp [get_lr, hnw, hnd]
    refine ⟨hval, ?_, ?_⟩
    · rw [hval]
      have hc : -1 ≤ Real.cos (Real.pi * decayRatio w d it) := Real.neg_one_le_cos _
      nlinarith
    · rw [hval]
      have hc : Real.cos (Real.pi * decayRatio w d it) ≤ 1 := Real.cos_le_one _
      nlinarith

/-- Witness for `get_lr_piecewise`: on the cosine branch at
`warmup_iters = 2`, `lr_decay_iters = 10`, `it = 5`, with
`learning_rate = 1` and `min_lr = 0`, the schedule value lies in `[0, 1]`. -/
theorem get_lr_piecewise_witness :
    (0 : ℝ) ≤ get_lr 2 10 1 0 5 ∧ get_lr 2 10 1 0 5 ≤ 1 := by
  have h := get_lr_piecewise 2 10 1 0 5 (by norm_num) (by norm_num)
  have h₃ := h.2.2 (by norm_num) (by norm_num)
  exact ⟨h₃.2.1, h₃.2.2⟩

/-! ## Hyperparameter suggestion (`suggest_params`, lines 109-130)

An Optuna trial is embedded as an oracle structure: one function per kind
of `suggest_*` call the source makes.  `ValidTrial` records Optuna's
contract (a categorical suggestion is drawn from the offered list, an
int/float suggestion from the offered closed range, log-scaled or not). -/

structure Trial where
  suggest_categorical_int : String → List ℤ → ℤ
  suggest_categorical_str : String → List String → String
  suggest_int : String → ℤ → ℤ → ℤ
  suggest_float : String → ℚ → ℚ → Bool → ℚ

/-- Optuna's contract for the suggestion oracle. -/
structure ValidTrial (t : Trial) : Prop where
  cat_int_mem : ∀ nm (cs : List ℤ), cs ≠ [] → t.suggest_categorical_int nm cs ∈ cs
  cat_str_mem : ∀ nm (cs : List String), cs ≠ [] → t.suggest_categorical_str nm cs ∈ cs
  int_range : ∀ nm lo hi, lo ≤ hi →
    lo ≤ t.suggest_int nm lo hi ∧ t.suggest_int nm lo hi ≤ hi
  float_range : ∀ nm lo hi lg, lo ≤ hi →
    lo ≤ t.suggest_float nm lo hi lg ∧ t.suggest_float nm lo hi lg ≤ hi

/-- The dictionary `suggest_params` returns. -/
structure Params where
  block_size : ℤ
  n_layer : ℤ
  dropout : ℚ
  weight_decay : ℚ
  learning_rate : ℚ
  learning_rate_scale : ℚ
  min_lr : ℚ
  n_head : ℤ
  model__n_linear_layers : ℤ
  model__mean_or_flatten : String

/-- Embedding of `suggest_params`: one `suggest_*` call per hyperparameter,
`min_lr` derived as `learning_rate / learning_rate_scale`. -/
def suggest_params (t : Trial) : Params :=
  let block_size := t.suggest_categorical_int "block_size" [64, 128, 256, 512]
  let n_layer := t.suggest_int "n_layer" 4 10
  let dropout := t.suggest_float "dropout" 0.0 0.2 false
  let weight_decay := t.suggest_float "weight_decay" 0.0 0.2 false
  let learning_rate := t.suggest_float "learning_rate" 0.000001 0.001 true
  let learning_rate_scale := t.suggest_float "learning_rate_scale" 1 100 true
  let min_lr := learning_rate / learning_rate_scale
  let n_head := t.suggest_categorical_int "n_head" [4, 8, 16]
  let model__n_linear_layers := t.suggest_int "model__n_linear_layers" 1 2
  let model__mean_or_flatten :=
    t.suggest_categorical_str "model__mean_or_flatten" ["mean", "flatten"]
  ⟨block_size, n_layer, dropout, weight_decay, learning_rate, learning_rate_scale,
    min_lr, n_head, model__n_linear_layers, model__mean_or_flatten⟩

/-- C5: every parameter dictionary produced by `suggest_params` from a
contract-respecting trial satisfies the advertised ranges, and
`min_lr = learning_rate / learning_rate_scale` lies between
`learning_rate / 100` and `learning_rate`. -/
theorem suggest_params_ranges (t : Trial) (hv : ValidTrial t) :
    (suggest_params t).block_size ∈ ([64, 128, 256, 512] : List ℤ) ∧
    (4 ≤ (suggest_params t).n_layer ∧ (suggest_params t).n_layer ≤ 10) ∧
    (0.0 ≤ (suggest_params t).dropout ∧ (suggest_params t).dropout ≤ 0.2) ∧
    (0.0 ≤ (suggest_params t).weight_decay ∧ (suggest_params t).weight_decay ≤ 0.2) ∧
    (0.000001 ≤ (suggest_params t).learning_rate ∧
      (suggest_params t).learning_rate ≤ 0.001) ∧
    (1 ≤ (suggest_params t).learning_rate_scale ∧
      (suggest_params t).learning_rate_scale ≤ 100) ∧
    (suggest_params t).n_head ∈ ([4, 8, 16] : List ℤ) ∧
    ((suggest_params t).model__n_linear_layers = 1 ∨
      (suggest_params t).model__n_linear_layers = 2) ∧
    ((suggest_params t).model__mean_or_flatten = "mean" ∨
      (suggest_params t).model__mean_or_flatten = "flatten") ∧
    (suggest_params t).min_lr =
      (suggest_params t).learning_rate / (suggest_params t).learning_rate_scale ∧
    (suggest_params t).learning_rate / 100 ≤ (suggest_params t).min_lr ∧
    (suggest_params t).min_lr ≤ (suggest_params t).learning_rate := by
  have hbs := hv.cat_int_mem "block_size" [64, 128, 256, 512] (by simp)
  have hnl := hv.int_range "n_layer" 4 10 (by norm_num)
  have hdo := hv.float_range "dropout" 0.0 0.2 false (by norm_num)
  have hwd := hv.float_range "weight_decay" 0.0 0.2 false (by norm_num)
  have hlr := hv.float_range "learning_rate" 0.000001 0.001 true (by norm_num)
  have hsc := hv.float_range "learning_rate_scale" 1 100 true (by norm_num)
  have hnh := hv.cat_int_mem "n_head" [4, 8, 16] (by simp)
  have hll := hv.int_range "model__n_linear_layers" 1 2 (by norm_num)
  have hmf := hv.cat_str_mem "model__mean_or_flatten" ["mean", "flatten"] (by simp)
  have hlr0 : (0 : ℚ) < t.suggest_float "learning_rate" 0.000001 0.001 true := by
    have := hlr.1; linarith
  have hsc0 : (0 : ℚ) < t.suggest_float "learning_rate_scale" 1 100 true := by
    have := hsc.1; linarith
  have elr : (suggest_params t).learning_rate =
      t.suggest_float "learning_rate" 0.000001 0.001 true := rfl
  have esc : (suggest_params t).learning_rate_scale =
      t.suggest_float "learning_rate_scale" 1 100 true := rfl
  have eml : (suggest_params t).min_lr =
      t.suggest_float "learning_rate" 0.000001 0.001 true /
        t.suggest_float "learning_rate_scale" 1 100 true := rfl
  refine ⟨hbs, hnl, ⟨hdo.1, hdo.2⟩, ⟨hwd.1, hwd.2⟩, ⟨hlr.1, hlr.2⟩, ⟨hsc.1, hsc.2⟩,
    hnh, ?_, ?_, rfl, ?_, ?_⟩
  · have h1 := hll.1
    have h2 := hll.2
    have e : (suggest_params t).model__n_linear_layers =
        t.suggest_int "model__n_linear_layers" 1 2 := rfl
    omega
  · simpa [suggest_params] using hmf
  · rw [elr, eml, div_le_div_iff₀ (by norm_num) hsc0]
    nlinarith [mul_nonneg hlr0.le (sub_nonneg.mpr hsc.2)]
  · rw [eml, elr]
    exact div_le_self hlr0.le hsc.1

/-- A concrete contract-respecting trial: every suggestion returns the first
choice / the lower bound. -/
def loTrial : Trial :=
  ⟨fun _ cs => cs.headD 0, fun _ cs => cs.headD "", fun _ lo _ => lo,
    fun _ lo _ _ => lo⟩

/-- The concrete trial respects Optuna's contract. -/
theorem loTrial_valid : ValidTrial loTrial := by
  refine ⟨?_, ?_, ?_, ?_⟩
  · intro nm cs h
    cases cs with
    | nil => exact absurd rfl h
    | cons a l => simp [loTrial]
  · intro nm cs h
    cases cs with
    | nil => exact absurd rfl h
    | cons a l => simp [loTrial]
  · intro nm lo hi h
    exact ⟨le_refl lo, h⟩
  · intro nm lo hi lg h
    exact ⟨le_refl lo, h⟩

/-- Witness for `suggest_params_ranges` at the concrete trial `loTrial`. -/
theorem suggest_params_ranges_witness :
    (suggest_params loTrial).min_lr =
      (suggest_params loTrial).learning_rate / (suggest_params loTrial).learning_rate_scale ∧
    (suggest_params loTrial).min_lr ≤ (suggest_params loTrial).learning_rate ∧
    (suggest_params loTrial).block_size ∈ ([64, 128, 256, 512] : List ℤ) := by
  have h := suggest_params_ranges loTrial loTrial_valid
  exact ⟨h.2.2.2.2.2.2.2.2.2.1, h.2.2.2.2.2.2.2.2.2.2.2, h.1⟩

/-! ## DDP bootstrap (`__main__`, lines 417-435)

The environment is embedded as the parsed integer value of `RANK` (absent
= `None`) and of `LOCAL_RANK`; the bootstrap computes the flags, device
string, accumulated seed and (possibly scaled) gradient accumulation. -/

/-- What the distributed bootstrap block computes. -/
structure InitResult where
  ddp : Bool
  master_process : Bool
  seed_offset : ℤ
  seed : ℤ
  device : String
  gradient_accumulation_steps : ℕ

/-- Embedding of lines 417-435: `ddp = int(os.environ.get('RANK', -1)) != -1`;
in the ddp case the device is `cuda:{LOCAL_RANK}`, the master is rank 0 and
the seed offset is the rank; otherwise a single master process with seed
offset 0 and `gradient_accumulation_steps *= 8`.  The final seed is
`1337 + seed_offset` (line 435). -/
def ddp_bootstrap (rank_env : Option ℤ) (local_rank : ℤ)
    (gradient_accumulation_steps : ℕ) : InitResult :=
  if rank_env.getD (-1) ≠ -1 then
    let ddp_rank := rank_env.getD (-1)
    ⟨true, ddp_rank = 0, ddp_rank, 1337 + ddp_rank,
      "cuda:" ++ toString local_rank, gradient_accumulation_steps⟩
  else
    ⟨false, true, 0, 1337 + 0, "cuda", gradient_accumulation_steps * 8⟩

/-- C7: the run is distributed iff `RANK` is set to a value other than `-1`;
in that case the device is `cuda:{LOCAL_RANK}`, exactly rank 0 is the master
and the seed is `1337 + rank` (so distinct ranks get distinct seeds); in the
non-distributed case the process is the master, the seed is 1337, and
`gradient_accumulation_steps` is multiplied by 8. -/
theorem ddp_bootstrap_spec (re : Option ℤ) (l : ℤ) (g : ℕ) :
    ((ddp_bootstrap re l g).ddp = true ↔ ∃ r, re = some r ∧ r ≠ -1) ∧
    (∀ r : ℤ, re = some r → r ≠ -1 →
      (ddp_bootstrap re l g).device = "cuda:" ++ toString l ∧
      ((ddp_bootstrap re l g).master_process = true ↔ r = 0) ∧
      (ddp_bootstrap re l g).seed = 1337 + r) ∧
    (∀ (re' : Option ℤ) (r r' : ℤ), re = some r → re' = some r' →
      r ≠ -1 → r' ≠ -1 → r ≠ r' →
      (ddp_bootstrap re l g).seed ≠ (ddp_bootstrap re' l g).seed) ∧
    (re.getD (-1) = -1 →
      (ddp_bootstrap re l g).master_process = true ∧
      (ddp_bootstrap re l g).seed = 1337 ∧
      (ddp_bootstrap re l g).gradient_accumulation_steps = g * 8) := by
  refine ⟨?_, ?_, ?_, ?_⟩
  · constructor
    · intro h
      cases re with
      | none => simp [ddp_bootstrap] at h
      | some r =>
        by_cases hr : r = -1
        · subst hr; simp [ddp_bootstrap] at h
        · exact ⟨r, rfl, hr⟩
    · rintro ⟨r, rfl, hr⟩
      simp [ddp_bootstrap, hr]
  · rintro r rfl hr
    refine ⟨by simp [ddp_bootstrap, hr], ?_, by simp [ddp_bootstrap, hr]⟩
    simp [ddp_bootstrap, hr]
  · rintro re' r r' rfl rfl hr hr' hne
    simp only [ddp_bootstrap]
    simp [hr, hr']
    omega
  · intro h
    simp [ddp_bootstrap, h]

/-- Witness for `ddp_bootstrap_spec`: a rank-3 environment gets device
`cuda:2` and seed 1340; an unset `RANK` gives a master process with seed
1337 and gradient accumulation scaled by 8. -/
theorem ddp_bootstrap_spec_witness :
    (ddp_bootstrap (some 3) 2 5).device = "cuda:" ++ toString (2 : ℤ) ∧
    (ddp_bootstrap (some 3) 2 5).seed = 1337 + 3 ∧
    (ddp_bootstrap none 2 5).master_process = true ∧
    (ddp_bootstrap none 2 5).seed = 1337 ∧
    (ddp_bootstrap none 2 5).gradient_accumulation_steps = 5 * 8 := by
  have h₁ := (ddp_bootstrap_spec (some 3) 2 5).2.1 3 rfl (by norm_num)
  have h₂ := (ddp_bootstrap_spec none 2 5).2.2.2 (by simp)
  exact ⟨h₁.1, h₁.2.2, h₂.1, h₂.2.1, h₂.2.2⟩

/-! ## Loading WSI features (`load_wsi_features`, lines 95-107)

A serialized `.pt` file is embedded as its basename plus the two arrays the
loader reads (`labels`, `features`); feature values are integers (their
numeric type is irrelevant to every claim).  A Python dict is embedded as an
association list in insertion order, with overwriting insert
(`dictInsert`) and first-match lookup (`lookup`). -/

/-- One `.pt` file as `torch.load` sees it: its basename, its `labels`
array and its `features` matrix (a list of rows). -/
structure WSIFile where
  name : String
  labels : List ℤ
  features : List (List ℤ)

/-- `os.path.basename(file).split('.')[0]`: the basename truncated at the
first dot (the basename itself is the embedded `name`), written over the
character list so that it evaluates by kernel reduction. -/
def slideOf (f : WSIFile) : String := ⟨f.name.data.takeWhile (fun c => c != '.')⟩

/-- `np.unique`: the sorted list of distinct values of an array. -/
def npUnique (l : List ℤ) : List ℤ := List.insertionSort (· ≤ ·) l.dedup

/-- Python dict lookup on an association list (first match). -/
def lookup {α : Type} (d : List (String × α)) (k : String) : Option α :=
  (d.find? (fun p => p.1 == k)).map (fun p => p.2)

/-- Python dict assignment `d[k] = v`: overwrite an existing key in place,
otherwise append. -/
def dictInsert {α : Type} (d : List (String × α)) (k : String) (v : α) :
    List (String × α) :=
  if (d.find? (fun p => p.1 == k)).isSome then
    d.map (fun p => if p.1 = k then (k, v) else p)
  else d ++ [(k, v)]

/-- `np.unique(f.labels)[0]` as a total function (meaningful when the labels
array is nonempty). -/
def fileMin (f : WSIFile) : ℤ := (npUnique f.labels).headD 0

/-- One iteration of the loader's `for file in files` loop: read the label
as `np.unique(data['labels'])[0]` (an `IndexError`, i.e. `none`, on an empty
labels array), append `(slide, label)` to `slides_labels` and store the
features under the slide key. -/
def loadStep (acc : List (String × ℤ) × List (String × List (List ℤ))) (f : WSIFile) :
    Option (List (String × ℤ) × List (String × List (List ℤ))) :=
  match (npUnique f.labels).head? with
  | none => none
  | some label =>
    some (acc.1 ++ [(slideOf f, label)], dictInsert acc.2 (slideOf f) f.features)

/-- Embedding of `load_wsi_features`: fold the per-file step over the globbed
file list, then derive `len_features` and return
`(features, slides_labels, len(slides_labels), len_features)`. -/
def load_wsi_features (files : List WSIFile) :
    Option (List (String × List (List ℤ)) × List (String × ℤ) × ℕ × List (String × ℕ)) :=
  match files.foldlM loadStep ([], []) with
  | none => none
  | some (slides_labels, features) =>
    some (features, slides_labels, slides_labels.length,
      features.map (fun p => (p.1, p.2.length)))

/-- The head of `np.unique l` is the least element of a nonempty `l`. -/
theorem npUnique_head_least (l : List ℤ) (hl : l ≠ []) :
    (npUnique l).head? = some ((npUnique l).headD 0) ∧
    (npUnique l).headD 0 ∈ l ∧ ∀ x ∈ l, (npUnique l).headD 0 ≤ x := by
  have hperm : List.Perm (npUnique l) l.dedup := List.perm_insertionSort _ _
  have hsorted : List.Sorted (· ≤ ·) (npUnique l) := List.sorted_insertionSort _ _
  have hne : npUnique l ≠ [] := by
    intro h
    have h2 := hperm.symm
    rw [h] at h2
    exact hl ((List.dedup_eq_nil l).mp h2.eq_nil)
  obtain ⟨m, t, hmt⟩ := List.exists_cons_of_ne_nil hne
  rw [hmt]
  have hmem : m ∈ l := by
    have : m ∈ npUnique l := by rw [hmt]; exact List.mem_cons_self m t
    exact List.mem_dedup.mp (hperm.mem_iff.mp this)
  refine ⟨rfl, by simpa using hmem, ?_⟩
  intro x hx
  have hx' : x ∈ npUnique l := hperm.symm.mem_iff.mp (List.mem_dedup.mpr hx)
  rw [hmt] at hx' hsorted
  rcases List.mem_cons.mp hx' with h | h
  · simp [h]
  · exact (List.sorted_cons.mp hsorted).1 x h

/-- Looking up a key that is in no pair of `d` fails. -/
theorem lookup_eq_none_of_forall {α : Type} (d : List (String × α)) (k : String)
    (h : ∀ p ∈ d, p.1 ≠ k) : lookup d k = none := by
  induction d with
  | nil => rfl
  | cons p rest ih =>
    have hp : ¬ (p.1 == k) = true := by
      simpa using h p (List.mem_cons_self p rest)
    simp only [lookup, List.find?]
    rw [Bool.eq_false_iff.mpr hp]
    exact ih (fun q hq => h q (List.mem_cons_of_mem p hq))

/-- `dictInsert` on an absent key appends. -/
theorem dictInsert_eq_append {α : Type} (d : List (String × α)) (k : String) (v : α)
    (h : lookup d k = none) : dictInsert d k v = d ++ [(k, v)] := by
  have : d.find? (fun p => p.1 == k) = none := by
    simp only [lookup] at h
    exact Option.map_eq_none.mp h
  simp [dictInsert, this]

/-- Lookup distributes over append: the left list wins. -/
theorem lookup_append {α : Type} (d₁ d₂ : List (String × α)) (k : String) :
    lookup (d₁ ++ d₂) k =
      match lookup d₁ k with
      | some v => some v
      | none => lookup d₂ k := by
  induction d₁ with
  | nil => simp [lookup]
  | cons p rest ih =>
    by_cases hp : (p.1 == k) = true
    · simp [lookup, List.find?, hp]
    · simp only [List.cons_append, lookup, List.find?,
        Bool.eq_false_iff.mpr hp] at ih ⊢
      exact ih

/-- Lookup commutes with mapping the values of an association list. -/
theorem lookup_map_value {α β : Type} (d : List (String × α)) (g : α → β) (k : String) :
    lookup (d.map (fun p => (p.1, g p.2))) k = (lookup d k).map g := by
  induction d with
  | nil => rfl
  | cons p rest ih =>
    by_cases hp : (p.1 == k) = true
    · simp [lookup, List.find?, hp]
    · simp only [List.map_cons, lookup, List.find?, hp] at ih ⊢
      exact ih

/-- The loader's fold, run from any accumulator whose feature dict does not
yet contain any of the incoming slide keys. -/
theorem foldlM_loadStep (files : List WSIFile) :
    ∀ (sl : List (String × ℤ)) (ft : List (String × List (List ℤ))),
    (∀ f ∈ files, lookup ft (slideOf f) = none) →
    ((files.map slideOf).Nodup) →
    (∀ f ∈ files, f.labels ≠ []) →
    files.foldlM loadStep (sl, ft) =
      some (sl ++ files.map (fun f => (slideOf f, fileMin f)),
        ft ++ files.map (fun f => (slideOf f, f.features))) := by
  induction files with
  | nil => intro sl ft _ _ _; simp
  | cons f rest ih =>
    intro sl ft hdisj hnodup hlab
    have hlabf : f.labels ≠ [] := hlab f (List.mem_cons_self f rest)
    have hhead : (npUnique f.labels).head? = some (fileMin f) :=
      (npUnique_head_least f.labels hlabf).1
    have hstep : loadStep (sl, ft) f =
        some (sl ++ [(slideOf f, fileMin f)], ft ++ [(slideOf f, f.features)]) := by
      rw [loadStep, hhead]
      have := dictInsert_eq_append ft (slideOf f) f.features
        (hdisj f (List.mem_cons_self f rest))
      simp [this]
    have hrec := ih (sl ++ [(slideOf f, fileMin f)]) (ft ++ [(slideOf f, f.features)])
      ?_ ?_ ?_
    · rw [List.foldlM_cons, hstep]
      simp only [Option.bind_eq_bind, Option.some_bind] at hrec ⊢
      rw [hrec]
      simp
    · intro g hg
      rw [lookup_append]
      rw [hdisj g (List.mem_cons_of_mem f hg)]
      have hne : slideOf g ≠ slideOf f := by
        have := hnodup
        simp only [List.map_cons, List.nodup_cons] at this
        intro he
        exact this.1 (he ▸ List.mem_map_of_mem slideOf hg)
      simp [lookup, List.find?, beq_eq_false_iff_ne.mpr (Ne.symm hne)]
    · have := hnodup
      simp only [List.map_cons, List.nodup_cons] at this
      exact this.2
    · exact fun g hg => hlab g (List.mem_cons_of_mem f hg)

/-- C6: on a directory of files with pairwise-distinct truncated basenames
and nonempty labels arrays, `load_wsi_features` returns `n = ` the number
of files, a features dict with exactly one entry per file keyed by the
truncated basename, `slides_labels` pairing each slide with the least label
value of its file, and `len_features` mapping each slide to its row count. -/
theorem load_wsi_features_spec (files : List WSIFile)
    (hnodup : (files.map slideOf).Nodup) (hlab : ∀ f ∈ files, f.labels ≠ []) :
    load_wsi_features files =
      some (files.map (fun f => (slideOf f, f.features)),
        files.map (fun f => (slideOf f, fileMin f)),
        files.length,
        files.map (fun f => (slideOf f, f.features.length))) ∧
    (∀ f ∈ files, fileMin f ∈ f.labels ∧ ∀ x ∈ f.labels, fileMin f ≤ x) ∧
    (∀ s rows, lookup (files.map (fun f => (slideOf f, f.features))) s = some rows →
      lookup (files.map (fun f => (slideOf f, f.features.length))) s =
        some rows.length) := by
  have hfold := foldlM_loadStep files [] [] (fun f _ => rfl) hnodup hlab
  refine ⟨?_, ?_, ?_⟩
  · rw [load_wsi_features, hfold]
    simp [List.map_map, Function.comp]
  · intro f hf
    have h := npUnique_head_least f.labels (hlab f hf)
    exact ⟨h.2.1, h.2.2⟩
  · intro s rows hrows
    have : files.map (fun f => (slideOf f, f.features.length)) =
        (files.map (fun f => (slideOf f, f.features))).map
          (fun p => (p.1, p.2.length)) := by
      simp [List.map_map, Function.comp]
    rw [this, lookup_map_value, hrows]
    rfl

/-- Counterexample to C6 as stated: two `.pt` files whose basenames agree up
to the first dot (`a.1.pt`, `a.2.pt`) produce a features dict with a single
entry (the second file overwrites the first), not one entry per file, while
`n` still counts both files. -/
theorem load_wsi_features_cex :
    load_wsi_features [⟨"a.1.pt", [0], [[1]]⟩, ⟨"a.2.pt", [0], [[2], [3]]⟩] =
      some ([("a", [[2], [3]])], [("a", 0), ("a", 0)], 2, [("a", 2)]) ∧
    ([("a", [[2], [3]])] : List (String × List (List ℤ))).length = 1 ∧
    ([(⟨"a.1.pt", [0], [[1]]⟩ : WSIFile), ⟨"a.2.pt", [0], [[2], [3]]⟩]).length = 2 :=
  ⟨rfl, rfl, rfl⟩

/-- Two concrete slide files for the loader witness. -/
def demoFiles : List WSIFile :=
  [⟨"a.pt", [3, 1, 2], [[1, 1], [2, 2]]⟩, ⟨"b.pt", [5], [[7, 7]]⟩]

/-- Witness for `load_wsi_features_spec` on two concrete files. -/
theorem load_wsi_features_spec_witness :
    load_wsi_features demoFiles =
      some (demoFiles.map (fun f => (slideOf f, f.features)),
        demoFiles.map (fun f => (slideOf f, fileMin f)),
        demoFiles.length,
        demoFiles.map (fun f => (slideOf f, f.features.length))) ∧
    fileMin ⟨"a.pt", [3, 1, 2], [[1, 1], [2, 2]]⟩ = 1 := by
  have h := load_wsi_features_spec demoFiles (by decide) (by decide)
  exact ⟨h.1, by decide⟩

/-! ## Batch sampling (`get_batch`, lines 210-230)

`get_batch` receives the 4-tuple a `load_wsi_features` call produced.  The
two `np.random.choice` draws are embedded by oracle functions `rngS`
(slide draws) and `rngR` (per-slide row draws): `np.random.choice(n, size,
replace=True)` returns `size` values uniform on `[0, n)`, embedded as
`rng k % n`, and raises `ValueError` when `n = 0` and at least one sample
is requested.  The `assert n_slides > 0` is an `AssertionError`; a fancy
index out of range is an `IndexError`; `torch.stack` raises a
`RuntimeError` unless it is given a nonempty list of tensors that all have
the same shape (so a draw mixing slides of different feature widths
fails).  Labels stay integers: the `np.array` string round trip the
source performs (`str` on the way in, `np.int64` on the way out) is
value-preserving for integer labels. -/

/-- The exceptions `get_batch` can raise. -/
inductive BatchErr where
  | assertionError : BatchErr
  | valueError : BatchErr
  | keyError : BatchErr
  | indexError : BatchErr
  | runtimeError : BatchErr
deriving DecidableEq, Repr

/-- `np.random.choice(n, size=size, replace=True)` with draw oracle `rng`:
`size` values in `[0, n)`, failing (ValueError) iff `n = 0` and `size > 0`. -/
def npChoice (n size : ℕ) (rng : ℕ → ℕ) : Except BatchErr (List ℕ) :=
  if n = 0 ∧ 0 < size then .error .valueError
  else .ok ((List.range size).map (fun k => rng k % n))

/-- Numpy fancy row indexing `rows[js, :]`: `IndexError` on an
out-of-range index. -/
def sampleRows (rows : List (List ℤ)) : List ℕ → Except BatchErr (List (List ℤ))
  | [] => .ok []
  | j :: js =>
    if h : j < rows.length then
      match sampleRows rows js with
      | .error e => .error e
      | .ok tl => .ok (rows.get ⟨j, h⟩ :: tl)
    else .error .indexError

/-- The list comprehension
`[np.random.choice(len_features[s], size=block_size, replace=True) for s in slides]`,
walking the enumerated slide list (`KeyError` on a slide missing from
`len_features`). -/
def sampleIndicesFor (len_features : List (String × ℕ)) (block_size : ℕ)
    (rngR : ℕ → ℕ → ℕ) : List (ℕ × String) → Except BatchErr (List (List ℕ))
  | [] => .ok []
  | (idx, s) :: rest =>
    match lookup len_features s with
    | none => .error .keyError
    | some len =>
      match npChoice len block_size (rngR idx) with
      | .error e => .error e
      | .ok js =>
        match sampleIndicesFor len_features block_size rngR rest with
        | .error e => .error e
        | .ok tl => .ok (js :: tl)

/-- The stacked tensor
`torch.stack([torch.from_numpy(features[s][sample_indices[idx],:]) for idx, s in enumerate(slides)])`,
one row selection per enumerated slide (`KeyError` on a slide missing from
`features`). -/
def buildX (features : List (String × List (List ℤ))) (sample_indices : List (List ℕ)) :
    List (ℕ × String) → Except BatchErr (List (List (List ℤ)))
  | [] => .ok []
  | (idx, s) :: rest =>
    match lookup features s with
    | none => .error .keyError
    | some rows =>
      match sampleRows rows (sample_indices.getD idx []) with
      | .error e => .error e
      | .ok xi =>
        match buildX features sample_indices rest with
        | .error e => .error e
        | .ok tl => .ok (xi :: tl)

/-- The shape of one stacked element `features[s][sample_indices[idx],:]`:
its list of row widths (for a genuine 2-D tensor this is a constant list,
so comparing these lists is comparing tensor shapes). -/
def tensorShape (xi : List (List ℤ)) : List ℕ := xi.map List.length

/-- `torch.stack`'s precondition: a nonempty list of tensors that all have
the same shape.  Anything else raises `RuntimeError`. -/
def torchStackOk (x : List (List (List ℤ))) : Bool :=
  match x with
  | [] => false
  | xi :: rest => rest.all (fun xj => tensorShape xj == tensorShape xi)

/-- Embedding of `get_batch`: assert a nonempty slide set (the tuple's
`n_slides` component), draw `batch_size` slide indices with replacement,
draw `block_size` row indices with replacement per chosen slide, gather the
rows and stack them (`torch.stack` fails on an empty list or on tensors of
differing shapes), and pair the stacked tensor with the chosen labels. -/
def get_batch (features : List (String × List (List ℤ)))
    (slides_labels : List (String × ℤ)) (n_slides0 : ℕ)
    (len_features : List (String × ℕ)) (batch_size block_size : ℕ)
    (rngS : ℕ → ℕ) (rngR : ℕ → ℕ → ℕ) :
    Except BatchErr (List (List (List ℤ)) × List ℤ) :=
  if 0 < n_slides0 then
    let n_slides := slides_labels.length
    match npChoice n_slides batch_size rngS with
    | .error e => .error e
    | .ok batch_indices =>
      let slides := batch_indices.map (fun i => (slides_labels.getD i ("", 0)).1)
      let labels := batch_indices.map (fun i => (slides_labels.getD i ("", 0)).2)
      match sampleIndicesFor len_features block_size rngR slides.enum with
      | .error e => .error e
      | .ok sample_indices =>
        match buildX features sample_indices slides.enum with
        | .error e => .error e
        | .ok x => if torchStackOk x then .ok (x, labels) else .error .runtimeError
  else .error .assertionError

/-- `getD` through a `map`, at an in-range index. -/
theorem getD_map_of_lt {α β : Type} (l : List α) (f : α → β) (i : ℕ) (d : β) (d' : α)
    (h : i < l.length) : (l.map f).getD i d = f (l.getD i d') := by
  have hm : i < (l.map f).length := by simpa using h
  rw [List.getD_eq_getElem _ _ hm, List.getD_eq_getElem _ _ h, List.getElem_map]

/-- `getD` on `List.range`, at an in-range index. -/
theorem getD_range_of_lt (n i d : ℕ) (h : i < n) : (List.range n).getD i d = i := by
  have hm : i < (List.range n).length := by simpa using h
  rw [List.getD_eq_getElem _ _ hm, List.getElem_range]

/-- `getD` of an in-range index is a member. -/
theorem getD_mem_of_lt {α : Type} (l : List α) (i : ℕ) (d : α) (h : i < l.length) :
    l.getD i d ∈ l := by
  rw [List.getD_eq_getElem _ _ h]
  exact List.getElem_mem h

/-- `getD` on `enumFrom`, at an in-range index. -/
theorem enumFrom_getD (l : List String) : ∀ (n i : ℕ), i < l.length →
    (List.enumFrom n l).getD i (0, "") = (n + i, l.getD i "") := by
  induction l with
  | nil => intro n i h; simp at h
  | cons a t ih =>
    intro n i h
    cases i with
    | zero => simp [List.enumFrom]
    | succ k =>
      have hk : k < t.length := by simpa using Nat.lt_of_succ_lt_succ h
      simp only [List.enumFrom, List.getD_cons_succ]
      rw [ih (n + 1) k hk]
      refine Prod.ext ?_ rfl
      simp
      omega

/-- `getD` on `List.enum`, at an in-range index. -/
theorem enum_getD (l : List String) (i : ℕ) (h : i < l.length) :
    l.enum.getD i (0, "") = (i, l.getD i "") := by
  have := enumFrom_getD l 0 i h
  simpa [List.enum] using this

/-- A successful `lookup` exposes a member pair. -/
theorem lookup_some_mem {α : Type} (d : List (String × α)) (k : String) (v : α)
    (h : lookup d k = some v) : (k, v) ∈ d := by
  induction d with
  | nil => simp [lookup] at h
  | cons p rest ih =>
    obtain ⟨p₁, p₂⟩ := p
    by_cases hp : (p₁ == k) = true
    · simp only [lookup, List.find?, hp] at h
      have hk : p₁ = k := by simpa using hp
      have hv : p₂ = v := by simpa using h
      subst hk
      subst hv
      exact List.mem_cons_self _ _
    · rw [Bool.not_eq_true] at hp
      simp only [lookup, List.find?, hp] at h
      exact List.mem_cons_of_mem _ (ih h)

/-- `npChoice` succeeds when the population is nonempty, returning the
`size` reduced draws. -/
theorem npChoice_pos (n size : ℕ) (rng : ℕ → ℕ) (h : 0 < n) :
    npChoice n size rng = .ok ((List.range size).map (fun k => rng k % n)) := by
  have : ¬ (n = 0 ∧ 0 < size) := by omega
  simp [npChoice, this]

/-- `sampleRows` succeeds on in-range indices; its output has one row of
the source matrix per index. -/
theorem sampleRows_ok (rows : List (List ℤ)) :
    ∀ js : List ℕ, (∀ j ∈ js, j < rows.length) →
    ∃ xi, sampleRows rows js = .ok xi ∧ xi.length = js.length ∧
      ∀ r ∈ xi, r ∈ rows := by
  intro js
  induction js with
  | nil => intro _; exact ⟨[], rfl, rfl, by simp⟩
  | cons j js ih =>
    intro h
    have hj : j < rows.length := h j (List.mem_cons_self j js)
    obtain ⟨tl, htl, hlen, hmem⟩ := ih (fun q hq => h q (List.mem_cons_of_mem j hq))
    refine ⟨rows.get ⟨j, hj⟩ :: tl, ?_, by simp [hlen], ?_⟩
    · simp only [sampleRows, hj, dif_pos, htl]
    · intro r hr
      rcases List.mem_cons.mp hr with h' | h'
      · exact h' ▸ List.get_mem rows j hj
      · exact hmem r h'

/-- `sampleIndicesFor` succeeds when every listed slide has a nonempty
length entry; each per-slide draw list has `block_size` indices, all below
the recorded length. -/
theorem sampleIndicesFor_ok (len_features : List (String × ℕ)) (block_size : ℕ)
    (rngR : ℕ → ℕ → ℕ) :
    ∀ pairs : List (ℕ × String),
    (∀ i, i < pairs.length →
      ∃ len, lookup len_features (pairs.getD i (0, "")).2 = some len ∧ 0 < len) →
    ∃ sidx, sampleIndicesFor len_features block_size rngR pairs = .ok sidx ∧
      sidx.length = pairs.length ∧
      ∀ i, i < pairs.length →
        (sidx.getD i []).length = block_size ∧
        ∀ len, lookup len_features (pairs.getD i (0, "")).2 = some len →
          ∀ j ∈ sidx.getD i [], j < len := by
  intro pairs
  induction pairs with
  | nil => intro _; exact ⟨[], rfl, rfl, fun i hi => absurd hi (by simp)⟩
  | cons p rest ih =>
    intro h
    obtain ⟨idx, s⟩ := p
    obtain ⟨len, hlen, hpos⟩ := h 0 (by simp)
    simp only [List.getD_cons_zero] at hlen
    obtain ⟨tl, htl, hlen', hprops⟩ := ih (fun i hi => by
      have := h (i + 1) (by simpa using Nat.succ_lt_succ hi)
      simpa using this)
    refine ⟨((List.range block_size).map (fun k => rngR idx k % len)) :: tl, ?_, ?_, ?_⟩
    · simp only [sampleIndicesFor, hlen, npChoice_pos len block_size (rngR idx) hpos, htl]
    · simp [hlen']
    · intro i hi
      cases i with
      | zero =>
        refine ⟨by simp, ?_⟩
        intro len' hlen' hj hmem
        simp only [List.getD_cons_zero] at hlen' hmem ⊢
        rw [hlen] at hlen'
        obtain rfl : len = len' := Option.some.inj hlen'
        simp only [List.mem_map] at hmem
        obtain ⟨k, _, rfl⟩ := hmem
        exact Nat.mod_lt _ hpos
      | succ m =>
        have hm : m < rest.length := by simpa using Nat.lt_of_succ_lt_succ hi
        have := hprops m hm
        simpa using this

/-- `buildX` succeeds when every listed slide has a feature matrix and all
its planned row indices are in range; the resulting stack has one block of
source rows per listed slide. -/
theorem buildX_ok (features : List (String × List (List ℤ)))
    (sample_indices : List (List ℕ)) :
    ∀ pairs : List (ℕ × String),
    (∀ i, i < pairs.length →
      ∃ rows, lookup features (pairs.getD i (0, "")).2 = some rows ∧
        ∀ j ∈ sample_indices.getD (pairs.getD i (0, "")).1 [], j < rows.length) →
    ∃ x, buildX features sample_indices pairs = .ok x ∧
      x.length = pairs.length ∧
      ∀ i, i < pairs.length →
        ∃ rows, lookup features (pairs.getD i (0, "")).2 = some rows ∧
          (x.getD i []).length =
            (sample_indices.getD (pairs.getD i (0, "")).1 []).length ∧
          ∀ r ∈ x.getD i [], r ∈ rows := by
  intro pairs
  induction pairs with
  | nil => intro _; exact ⟨[], rfl, rfl, fun i hi => absurd hi (by simp)⟩
  | cons p rest ih =>
    intro h
    obtain ⟨idx, s⟩ := p
    obtain ⟨rows, hrows, hbound⟩ := h 0 (by simp)
    simp only [List.getD_cons_zero] at hrows hbound
    obtain ⟨xi, hxi, hxilen, hximem⟩ := sampleRows_ok rows _ hbound
    obtain ⟨tl, htl, htllen, hprops⟩ := ih (fun i hi => by
      have := h (i + 1) (by simpa using Nat.succ_lt_succ hi)
      simpa using this)
    refine ⟨xi :: tl, ?_, by simp [htllen], ?_⟩
    · simp only [buildX, hrows, hxi, htl]
    · intro i hi
      cases i with
      | zero =>
        exact ⟨rows, by simpa using hrows, by simpa using hxilen, by simpa using hximem⟩
      | succ m =>
        have hm : m < rest.length := by simpa using Nat.lt_of_succ_lt_succ hi
        have := hprops m hm
        simpa using this

/-- Mapping `List.length` over a list of equal-length rows gives a constant
list. -/
theorem map_length_replicate {α : Type} (l : List (List α)) (c : ℕ)
    (h : ∀ r ∈ l, r.length = c) : l.map List.length = List.replicate l.length c := by
  induction l with
  | nil => rfl
  | cons r t ih =>
    have h1 := h r (List.mem_cons_self r t)
    have h2 := ih (fun q hq => h q (List.mem_cons_of_mem r hq))
    simp [h1, h2, List.replicate_succ]

/-- The success behaviour of `get_batch`, shared by C2 and C4: a nonempty,
internally consistent slide table whose every slide has at least one
feature row, all rows sharing one width `feature_dim` (so every stacked
element is a `block_size × feature_dim` tensor and `torch.stack`'s
equal-shape requirement is met), yields a full `batch_size × block_size`
batch, with each batch entry drawn from a single sampled slide and paired
with that slide's label.  No relation between `batch_size` and the number
of slides, nor between `block_size` and any slide's row count, is
required. -/
theorem get_batch_ok (features : List (String × List (List ℤ)))
    (slides_labels : List (String × ℤ)) (n_slides0 : ℕ)
    (len_features : List (String × ℕ)) (batch_size block_size feature_dim : ℕ)
    (rngS : ℕ → ℕ) (rngR : ℕ → ℕ → ℕ)
    (hb : 0 < batch_size)
    (hn0 : n_slides0 = slides_labels.length)
    (hne : slides_labels ≠ [])
    (hwf : ∀ p ∈ slides_labels, ∃ rows, lookup features p.1 = some rows ∧
      lookup len_features p.1 = some rows.length ∧ rows ≠ [])
    (hdim : ∀ p ∈ features, ∀ row ∈ p.2, row.length = feature_dim) :
    ∃ x y, get_batch features slides_labels n_slides0 len_features batch_size
        block_size rngS rngR = .ok (x, y) ∧
      x.length = batch_size ∧ y.length = batch_size ∧
      ∀ i, i < batch_size → ∃ s label rows,
        (s, label) ∈ slides_labels ∧
        lookup features s = some rows ∧
        (x.getD i []).length = block_size ∧
        (∀ r ∈ x.getD i [], r ∈ rows) ∧
        y.getD i 0 = label := by
  have hn : 0 < slides_labels.length := List.length_pos.mpr hne
  have hpos0 : 0 < n_slides0 := hn0 ▸ hn
  -- the drawn slide indices
  set bi : List ℕ := (List.range batch_size).map (fun k => rngS k % slides_labels.length)
    with hbi
  have hbilen : bi.length = batch_size := by simp [hbi]
  have hbival : ∀ i, i < batch_size → bi.getD i 0 = rngS i % slides_labels.length := by
    intro i hi
    rw [hbi, getD_map_of_lt _ _ i 0 0 (by simpa using hi), getD_range_of_lt _ _ _ hi]
  have hbibound : ∀ i, i < batch_size → bi.getD i 0 < slides_labels.length := by
    intro i hi
    rw [hbival i hi]
    exact Nat.mod_lt _ hn
  set slides : List String := bi.map (fun i => (slides_labels.getD i ("", 0)).1)
    with hslides
  set labels : List ℤ := bi.map (fun i => (slides_labels.getD i ("", 0)).2)
    with hlabels
  have hslideslen : slides.length = batch_size := by simp [hslides, hbilen]
  have hlabelslen : labels.length = batch_size := by simp [hlabels, hbilen]
  have hslidesval : ∀ i, i < batch_size →
      slides.getD i "" = (slides_labels.getD (bi.getD i 0) ("", 0)).1 := by
    intro i hi
    rw [hslides, getD_map_of_lt _ _ i "" 0 (hbilen ▸ hi)]
  have hlabelsval : ∀ i, i < batch_size →
      labels.getD i 0 = (slides_labels.getD (bi.getD i 0) ("", 0)).2 := by
    intro i hi
    rw [hlabels, getD_map_of_lt _ _ i 0 0 (hbilen ▸ hi)]
  have henumlen : slides.enum.length = batch_size := by
    simp [List.enum_length, hslideslen]
  have henumval : ∀ i, i < batch_size →
      slides.enum.getD i (0, "") = (i, slides.getD i "") := by
    intro i hi
    exact enum_getD slides i (hslideslen ▸ hi)
  -- the pair underlying batch entry i
  have hpair : ∀ i, i < batch_size →
      slides_labels.getD (bi.getD i 0) ("", 0) ∈ slides_labels := by
    intro i hi
    exact getD_mem_of_lt _ _ _ (hbibound i hi)
  -- sampleIndicesFor succeeds
  obtain ⟨sidx, hsidx, hsidxlen, hsidxprops⟩ :=
    sampleIndicesFor_ok len_features block_size rngR slides.enum (by
      intro i hi
      have hi' : i < batch_size := henumlen ▸ hi
      rw [henumval i hi']
      obtain ⟨rows, hfrows, hlrows, hrne⟩ := hwf _ (hpair i hi')
      refine ⟨rows.length, ?_, List.length_pos.mpr hrne⟩
      rw [hslidesval i hi'] at *
      simpa using hlrows)
  -- buildX succeeds
  obtain ⟨x, hx, hxlen, hxprops⟩ := buildX_ok features sidx slides.enum (by
    intro i hi
    have hi' : i < batch_size := henumlen ▸ hi
    rw [henumval i hi']
    obtain ⟨rows, hfrows, hlrows, hrne⟩ := hwf _ (hpair i hi')
    refine ⟨rows, ?_, ?_⟩
    · rw [hslidesval i hi'] at *
      simpa using hfrows
    · intro j hj
      have hp := hsidxprops i (henumlen ▸ hi')
      rw [henumval i hi'] at hp
      have := hp.2 rows.length (by
        rw [hslidesval i hi'] at *
        simpa using hlrows)
      exact this j (by simpa using hj))
  have hxlen' : x.length = batch_size := by rw [hxlen, henumlen]
  have hblockall : ∀ i, i < batch_size → (x.getD i []).length = block_size := by
    intro i hi
    have hp := hxprops i (henumlen ▸ hi)
    rw [henumval i hi] at hp
    obtain ⟨rows', hrows', hlen', hmem'⟩ := hp
    have hsp := hsidxprops i (henumlen ▸ hi)
    rw [henumval i hi] at hsp
    have hblock : (sidx.getD i []).length = block_size := hsp.1
    rw [hlen']
    simpa using hblock
  have hwidth : ∀ i, i < batch_size → ∀ r ∈ x.getD i [], r.length = feature_dim := by
    intro i hi r hr
    have hp := hxprops i (henumlen ▸ hi)
    rw [henumval i hi] at hp
    obtain ⟨rows', hrows', hlen', hmem'⟩ := hp
    exact hdim _ (lookup_some_mem _ _ _ hrows') r (hmem' r hr)
  have hshape : ∀ i, i < batch_size →
      tensorShape (x.getD i []) = List.replicate block_size feature_dim := by
    intro i hi
    rw [tensorShape, map_length_replicate _ feature_dim (hwidth i hi), hblockall i hi]
  have hstack : torchStackOk x = true := by
    have hxne : x ≠ [] := List.ne_nil_of_length_pos (hxlen' ▸ hb)
    obtain ⟨xi0, restx, hxeq⟩ := List.exists_cons_of_ne_nil hxne
    have hxi0 : x.getD 0 [] = xi0 := by rw [hxeq]; rfl
    have h0 : tensorShape xi0 = List.replicate block_size feature_dim := by
      rw [← hxi0]
      exact hshape 0 hb
    rw [hxeq]
    show restx.all (fun xj => tensorShape xj == tensorShape xi0) = true
    rw [List.all_eq_true]
    intro xj hxj
    have hxjx : xj ∈ x := by rw [hxeq]; exact List.mem_cons_of_mem xi0 hxj
    obtain ⟨n, hn⟩ := List.mem_iff_get.mp hxjx
    have hgetD : x.getD n.1 [] = xj := by
      rw [List.getD_eq_getElem _ _ n.2, ← List.get_eq_getElem]
      exact hn
    have hj : tensorShape xj = List.replicate block_size feature_dim := by
      rw [← hgetD]
      exact hshape n.1 (hxlen' ▸ n.2)
    simp only [beq_iff_eq]
    rw [hj, h0]
  refine ⟨x, labels, ?_, hxlen', hlabelslen, ?_⟩
  · rw [get_batch]
    rw [if_pos hpos0]
    simp only [npChoice_pos _ batch_size rngS hn]
    rw [← hbi, ← hslides, ← hlabels, hsidx]
    simp only [hx, hstack]
    rfl
  · intro i hi
    refine ⟨(slides_labels.getD (bi.getD i 0) ("", 0)).1,
      (slides_labels.getD (bi.getD i 0) ("", 0)).2, ?_⟩
    obtain ⟨rows, hfrows, hlrows, hrne⟩ := hwf _ (hpair i hi)
    refine ⟨rows, ?_, hfrows, ?_, ?_, hlabelsval i hi⟩
    · have := hpair i hi
      simpa using this
    · exact hblockall i hi
    · have hp := hxprops i (henumlen ▸ hi)
      rw [henumval i hi] at hp
      obtain ⟨rows', hrows', hlen', hmem'⟩ := hp
      have : rows' = rows := by
        rw [hslidesval i hi] at hrows'
        have := hfrows
        simp only at hrows'
        exact Option.some.inj (hrows' ▸ this ▸ rfl)
      intro r hr
      exact this ▸ hmem' r hr

/-- The only error `npChoice` raises is `ValueError`. -/
theorem npChoice_error_eq (n size : ℕ) (rng : ℕ → ℕ) (e : BatchErr)
    (h : npChoice n size rng = .error e) : e = .valueError := by
  unfold npChoice at h
  split at h
  · exact (Except.error.inj h).symm
  · simp at h

/-- The only error `sampleRows` raises is `IndexError`. -/
theorem sampleRows_error_eq (rows : List (List ℤ)) :
    ∀ (js : List ℕ) (e : BatchErr), sampleRows rows js = .error e → e = .indexError := by
  intro js
  induction js with
  | nil => intro e h; simp [sampleRows] at h
  | cons j js ih =>
    intro e h
    by_cases hj : j < rows.length
    · simp only [sampleRows, dif_pos hj] at h
      cases hrec : sampleRows rows js with
      | error e' =>
        simp only [hrec, Except.error.injEq] at h
        subst h
        exact ih e' hrec
      | ok tl => simp [hrec] at h
    · simp only [sampleRows, dif_neg hj, Except.error.injEq] at h
      exact h.symm

/-- The only errors `sampleIndicesFor` raises are `KeyError` and
`ValueError`. -/
theorem sampleIndicesFor_error_eq (lf : List (String × ℕ)) (b : ℕ) (r : ℕ → ℕ → ℕ) :
    ∀ (pairs : List (ℕ × String)) (e : BatchErr),
      sampleIndicesFor lf b r pairs = .error e → e = .keyError ∨ e = .valueError := by
  intro pairs
  induction pairs with
  | nil => intro e h; simp [sampleIndicesFor] at h
  | cons p rest ih =>
    intro e h
    obtain ⟨idx, s⟩ := p
    simp only [sampleIndicesFor] at h
    cases hl : lookup lf s with
    | none =>
      simp only [hl, Except.error.injEq] at h
      subst h
      exact Or.inl rfl
    | some len =>
      simp only [hl] at h
      cases hc : npChoice len b (r idx) with
      | error e' =>
        simp only [hc, Except.error.injEq] at h
        subst h
        exact Or.inr (npChoice_error_eq _ _ _ e' hc)
      | ok js =>
        simp only [hc] at h
        cases hrec : sampleIndicesFor lf b r rest with
        | error e' =>
          simp only [hrec, Except.error.injEq] at h
          subst h
          exact ih e' hrec
        | ok tl => simp [hrec] at h

/-- The only errors `buildX` raises are `KeyError` and `IndexError`. -/
theorem buildX_error_eq (features : List (String × List (List ℤ)))
    (sidx : List (List ℕ)) :
    ∀ (pairs : List (ℕ × String)) (e : BatchErr),
      buildX features sidx pairs = .error e → e = .keyError ∨ e = .indexError := by
  intro pairs
  induction pairs with
  | nil => intro e h; simp [buildX] at h
  | cons p rest ih =>
    intro e h
    obtain ⟨idx, s⟩ := p
    simp only [buildX] at h
    cases hl : lookup features s with
    | none =>
      simp only [hl, Except.error.injEq] at h
      subst h
      exact Or.inl rfl
    | some rows =>
      simp only [hl] at h
      cases hs : sampleRows rows (sidx.getD idx []) with
      | error e' =>
        simp only [hs, Except.error.injEq] at h
        subst h
        exact Or.inr (sampleRows_error_eq _ _ e' hs)
      | ok xi =>
        simp only [hs] at h
        cases hrec : buildX features sidx rest with
        | error e' =>
          simp only [hrec, Except.error.injEq] at h
          subst h
          exact ih e' hrec
        | ok tl => simp [hrec] at h

/-- C2 (amended): for every split whose dataset contains at least one slide
and whose every slide has at least one feature row (with the tuple internally
consistent, as `load_wsi_features` produces it, and a positive batch size),
`get_batch` returns `(x, y)` with `x` stacking exactly `batch_size` samples
of exactly `block_size` rows of width `feature_dim` each, `y` of length
`batch_size`, and for every `i < batch_size` a single sampled slide `s`
with every row of `x[i]` a row of `features[s]` and `y[i]` the label paired
with `s` in `slides_labels`. -/
theorem get_batch_shape_spec (features : List (String × List (List ℤ)))
    (slides_labels : List (String × ℤ)) (n_slides0 : ℕ)
    (len_features : List (String × ℕ)) (batch_size block_size feature_dim : ℕ)
    (rngS : ℕ → ℕ) (rngR : ℕ → ℕ → ℕ)
    (hb : 0 < batch_size)
    (hn0 : n_slides0 = slides_labels.length)
    (hne : slides_labels ≠ [])
    (hwf : ∀ p ∈ slides_labels, ∃ rows, lookup features p.1 = some rows ∧
      lookup len_features p.1 = some rows.length ∧ rows ≠ [])
    (hdim : ∀ p ∈ features, ∀ row ∈ p.2, row.length = feature_dim) :
    ∃ x y, get_batch features slides_labels n_slides0 len_features batch_size
        block_size rngS rngR = .ok (x, y) ∧
      x.length = batch_size ∧ y.length = batch_size ∧
      (∀ i, i < batch_size →
        (x.getD i []).length = block_size ∧
        ∀ row ∈ x.getD i [], row.length = feature_dim) ∧
      ∀ i, i < batch_size → ∃ s label rows,
        (s, label) ∈ slides_labels ∧
        lookup features s = some rows ∧
        (∀ row ∈ x.getD i [], row ∈ rows) ∧
        y.getD i 0 = label := by
  obtain ⟨x, y, hok, hxlen, hylen, hprops⟩ :=
    get_batch_ok features slides_labels n_slides0 len_features batch_size
      block_size feature_dim rngS rngR hb hn0 hne hwf hdim
  refine ⟨x, y, hok, hxlen, hylen, ?_, ?_⟩
  · intro i hi
    obtain ⟨s, label, rows, hmem, hrows, hblock, hrmem, hlab⟩ := hprops i hi
    refine ⟨hblock, ?_⟩
    intro row hrow
    exact hdim (s, rows) (lookup_some_mem _ _ _ hrows) row (hrmem row hrow)
  · intro i hi
    obtain ⟨s, label, rows, hmem, hrows, hblock, hrmem, hlab⟩ := hprops i hi
    exact ⟨s, label, rows, hmem, hrows, hrmem, hlab⟩

/-- Counterexample to C2 as stated: a dataset whose single slide has zero
feature rows has at least one slide, yet `get_batch` raises the
`ValueError` of `np.random.choice(0, size=block_size)` instead of
returning a batch. -/
theorem get_batch_shape_cex :
    (([(("s" : String), (0 : ℤ))] : List (String × ℤ)).length = 1 ∧
      0 < ([(("s" : String), (0 : ℤ))] : List (String × ℤ)).length) ∧
    get_batch [("s", [])] [("s", 0)] 1 [("s", 0)] 1 1
      (fun _ => 0) (fun _ _ => 0) = .error .valueError :=
  ⟨⟨rfl, Nat.one_pos⟩, rfl⟩

/-- Witness for `get_batch_shape_spec`: a single two-row slide of width 2,
sampled into a batch of 2 entries of 3 rows each. -/
theorem get_batch_shape_spec_witness :
    ∃ x y, get_batch [("w", [[1, 2], [3, 4]])] [("w", 7)] 1 [("w", 2)] 2 3
        (fun k => k) (fun i k => i + k) = .ok (x, y) ∧
      x.length = 2 ∧ y.length = 2 ∧
      ∀ i, i < 2 → (x.getD i []).length = 3 ∧
        ∀ row ∈ x.getD i [], row.length = 2 := by
  obtain ⟨x, y, hok, hxlen, hylen, hshape, _⟩ :=
    get_batch_shape_spec [("w", [[1, 2], [3, 4]])] [("w", 7)] 1 [("w", 2)] 2 3 2
      (fun k => k) (fun i k => i + k)
      (by norm_num) rfl (by simp)
      (by
        intro p hp
        rw [List.mem_singleton] at hp
        subst hp
        exact ⟨[[1, 2], [3, 4]], rfl, rfl, by simp⟩)
      (by
        intro p hp row hrow
        rw [List.mem_singleton] at hp
        subst hp
        simp only [List.mem_cons, List.not_mem_nil, or_false] at hrow
        rcases hrow with h | h <;> subst h <;> rfl)
  exact ⟨x, y, hok, hxlen, hylen, hshape⟩

/-- C4 (amended): with the tuple internally consistent, `get_batch` raises
`AssertionError` exactly when the split has zero slides; and whenever the
split has at least one slide, every slide has at least one feature row, all
feature rows share a single width (so `torch.stack`'s equal-shape
requirement holds) and the batch size is positive, it succeeds with a full
batch — even when the number of slides is smaller than `batch_size` or a
sampled slide has fewer than `block_size` rows, because both draws sample
with replacement.  A slide with zero rows fails with `ValueError`; mixed
feature widths fail with `RuntimeError` at `torch.stack`. -/
theorem get_batch_failure_spec (features : List (String × List (List ℤ)))
    (slides_labels : List (String × ℤ)) (n_slides0 : ℕ)
    (len_features : List (String × ℕ)) (batch_size block_size feature_dim : ℕ)
    (rngS : ℕ → ℕ) (rngR : ℕ → ℕ → ℕ)
    (hn0 : n_slides0 = slides_labels.length) :
    (get_batch features slides_labels n_slides0 len_features batch_size
        block_size rngS rngR = .error .assertionError ↔ slides_labels = []) ∧
    (0 < batch_size → slides_labels ≠ [] →
      (∀ p ∈ slides_labels, ∃ rows, lookup features p.1 = some rows ∧
        lookup len_features p.1 = some rows.length ∧ rows ≠ []) →
      (∀ p ∈ features, ∀ row ∈ p.2, row.length = feature_dim) →
      ∃ x y, get_batch features slides_labels n_slides0 len_features batch_size
          block_size rngS rngR = .ok (x, y) ∧
        x.length = batch_size ∧ y.length = batch_size ∧
        ∀ i, i < batch_size → (x.getD i []).length = block_size) := by
  constructor
  · constructor
    · intro h
      by_contra hne
      have hn : 0 < slides_labels.length := List.length_pos.mpr hne
      have hpos0 : 0 < n_slides0 := hn0 ▸ hn
      rw [get_batch, if_pos hpos0] at h
      simp only [npChoice_pos _ batch_size rngS hn] at h
      cases hs : sampleIndicesFor len_features block_size rngR
          (((List.range batch_size).map
            (fun k => rngS k % slides_labels.length)).map
              (fun i => (slides_labels.getD i ("", 0)).1)).enum with
      | error e =>
        simp only [hs, Except.error.injEq] at h
        rcases sampleIndicesFor_error_eq _ _ _ _ e hs with h' | h' <;> simp [h'] at h
      | ok sidx =>
        simp only [hs] at h
        cases hbx : buildX features sidx
            (((List.range batch_size).map
              (fun k => rngS k % slides_labels.length)).map
                (fun i => (slides_labels.getD i ("", 0)).1)).enum with
        | error e =>
          simp only [hbx, Except.error.injEq] at h
          rcases buildX_error_eq _ _ _ e hbx with h' | h' <;> simp [h'] at h
        | ok x =>
          simp only [hbx] at h
          by_cases hxe : torchStackOk x = true
          · simp [hxe] at h
          · simp [hxe] at h
    · intro h
      subst h
      have : ¬ 0 < n_slides0 := by simp [hn0]
      rw [get_batch, if_neg this]
  · intro hb hne hwf hdim
    obtain ⟨x, y, hok, hxlen, hylen, hprops⟩ :=
      get_batch_ok features slides_labels n_slides0 len_features batch_size
        block_size feature_dim rngS rngR hb hn0 hne hwf hdim
    refine ⟨x, y, hok, hxlen, hylen, ?_⟩
    intro i hi
    obtain ⟨s, label, rows, _, _, hblock, _, _⟩ := hprops i hi
    exact hblock

/-- Counterexample to C4 as stated: a split with one slide (so nonzero
slides) whose feature matrix is empty still fails — with the `ValueError`
of `np.random.choice(0, size=block_size)` — so "at least one slide implies
success" is false.  A second instance: two slides of feature widths 2 and 3
also have at least one slide each with rows, yet a draw sampling both
fails with `RuntimeError` at `torch.stack` (unequal tensor shapes). -/
theorem get_batch_failure_cex :
    (0 < ([(("t" : String), (3 : ℤ))] : List (String × ℤ)).length ∧
      get_batch [("t", [])] [("t", 3)] 1 [("t", 0)] 2 2
        (fun k => k) (fun i k => i + k) = .error .valueError) ∧
    (0 < ([(("u" : String), (1 : ℤ)), ("v", 2)] : List (String × ℤ)).length ∧
      get_batch [("u", [[1, 2]]), ("v", [[3, 4, 5]])] [("u", 1), ("v", 2)] 2
        [("u", 1), ("v", 1)] 2 1 (fun k => k) (fun i k => i + k) =
          .error .runtimeError) :=
  ⟨⟨Nat.one_pos, rfl⟩, ⟨by decide, rfl⟩⟩

/-- Witness for `get_batch_failure_spec`: one slide with one row, sampled
into a batch of 3 entries of 4 rows each (more entries than slides, more
rows than the slide has), and the assertion-error characterisation. -/
theorem get_batch_failure_spec_witness :
    (¬ (get_batch [("s", [[5]])] [("s", 9)] 1 [("s", 1)] 3 4
        (fun k => k) (fun i k => i + k) = .error .assertionError)) ∧
    ∃ x y, get_batch [("s", [[5]])] [("s", 9)] 1 [("s", 1)] 3 4
        (fun k => k) (fun i k => i + k) = .ok (x, y) ∧
      x.length = 3 ∧ y.length = 3 ∧
      ∀ i, i < 3 → (x.getD i []).length = 4 := by
  have h := get_batch_failure_spec [("s", [[5]])] [("s", 9)] 1 [("s", 1)] 3 4 1
    (fun k => k) (fun i k => i + k) rfl
  constructor
  · intro hassert
    have := h.1.mp hassert
    simp at this
  · exact h.2 (by norm_num) (by simp) (by
      intro p hp
      rw [List.mem_singleton] at hp
      subst hp
      exact ⟨[[5]], rfl, rfl, by simp⟩) (by
      intro p hp row hrow
      rw [List.mem_singleton] at hp
      subst hp
      simp only [List.mem_cons, List.not_mem_nil, or_false] at hrow
      subst hrow
      rfl)

/-! ## Checkpoint gate (lines 331-343) and training loop (lines 311-387, 403)

Validation accuracy is a rational (`n_correct / (batch_size * eval_iters)`).
The model / optimizer / `model_args` / `config` payloads of a checkpoint are
opaque tokens of an arbitrary type. -/

/-- The dictionary written by `torch.save` at line 334-341. -/
structure Checkpoint (α : Type) where
  model : α
  optimizerState : α
  model_args : α
  iter_num : ℕ
  best_val_acc : ℚ
  config : α
deriving DecidableEq

/-- Embedding of lines 331-343: on
`losses['val_acc'] > best_val_acc or always_save_checkpoint`, update
`best_val_acc`, and additionally write a checkpoint when `iter_num > 0`.
Returns the new `best_val_acc` and the checkpoint written, if any. -/
def eval_checkpoint_step {α : Type} (always_save_checkpoint : Bool)
    (best_val_acc : ℚ) (iter_num : ℕ) (val_acc : ℚ)
    (model optimizerState model_args config : α) : ℚ × Option (Checkpoint α) :=
  if best_val_acc < val_acc ∨ always_save_checkpoint = true then
    let best := val_acc
    if 0 < iter_num then
      (best, some ⟨model, optimizerState, model_args, iter_num, best, config⟩)
    else (best, none)
  else (best_val_acc, none)

/-- Counterexample to C3 as stated: at the evaluation step of iteration 0
(which is a master-process evaluation step, since `0 % eval_interval = 0`),
a validation accuracy strictly above the best so far updates the best but
writes no checkpoint. -/
theorem checkpoint_gate_cex :
    (0 : ℚ) < 1 ∧
    eval_checkpoint_step false 0 0 1 (0 : ℕ) 0 0 0 = (1, none) :=
  ⟨by norm_num, rfl⟩

/-- C3 (amended): with `always_save_checkpoint = False`, an evaluation step
writes a checkpoint iff the fresh validation accuracy strictly exceeds the
best recorded so far AND `iter_num > 0`; a written checkpoint records the
updated `best_val_acc` (the fresh accuracy), the current `iter_num`, the
model and optimizer state, the model args and the config. -/
theorem checkpoint_gate_spec {α : Type} (best val_acc : ℚ) (iter : ℕ)
    (m o ma c : α) :
    ((eval_checkpoint_step false best iter val_acc m o ma c).2.isSome ↔
      (best < val_acc ∧ 0 < iter)) ∧
    ((eval_checkpoint_step false best iter val_acc m o ma c).1 =
      if best < val_acc then val_acc else best) ∧
    (∀ ck, (eval_checkpoint_step false best iter val_acc m o ma c).2 = some ck →
      ck.best_val_acc = val_acc ∧ ck.iter_num = iter ∧ ck.model = m ∧
      ck.optimizerState = o ∧ ck.model_args = ma ∧ ck.config = c) := by
  by_cases hlt : best < val_acc
  · by_cases hit : 0 < iter
    · refine ⟨?_, ?_, ?_⟩
      · simp [eval_checkpoint_step, hlt, hit]
      · simp [eval_checkpoint_step, hlt, hit]
      · intro ck hck
        simp only [eval_checkpoint_step, if_pos (Or.inl hlt), if_pos hit,
          Option.some.injEq] at hck
        subst hck
        exact ⟨rfl, rfl, rfl, rfl, rfl, rfl⟩
    · refine ⟨?_, ?_, ?_⟩
      · simp [eval_checkpoint_step, hlt, hit]
      · simp [eval_checkpoint_step, hlt, hit]
      · intro ck hck
        simp [eval_checkpoint_step, hlt, hit] at hck
  · refine ⟨?_, ?_, ?_⟩
    · simp [eval_checkpoint_step, hlt]
    · simp [eval_checkpoint_step, hlt]
    · intro ck hck
      simp [eval_checkpoint_step, hlt] at hck

/-- Witness for `checkpoint_gate_spec` at `best = 0`, `iter = 5`,
`val_acc = 1` with token payloads. -/
theorem checkpoint_gate_spec_witness :
    ((eval_checkpoint_step false 0 5 1 (10 : ℕ) 20 30 40).2.isSome ↔
      ((0 : ℚ) < 1 ∧ 0 < 5)) ∧
    (eval_checkpoint_step false 0 5 1 (10 : ℕ) 20 30 40).1 =
      (if (0 : ℚ) < 1 then 1 else 0) :=
  ⟨(checkpoint_gate_spec 0 1 5 (10 : ℕ) 20 30 40).1,
    (checkpoint_gate_spec 0 1 5 (10 : ℕ) 20 30 40).2.1⟩

/-- The configuration fields the training loop's control flow reads. -/
structure LoopCfg where
  eval_interval : ℕ
  eval_only : Bool
  always_save_checkpoint : Bool
  master_process : Bool
  max_iters : ℕ

/-- The mutable loop state the claims are about: the iteration counter,
the best validation accuracy so far, and a count of optimizer steps
performed (`scaler.step(optimizer)` executions). -/
structure LoopState where
  iter_num : ℕ
  best_val_acc : ℚ
  opt_steps : ℕ
deriving DecidableEq

/-- The `best_val_acc` update of lines 331-332 (the first component of
`eval_checkpoint_step`). -/
def update_best (always_save_checkpoint : Bool) (best val_acc : ℚ) : ℚ :=
  if best < val_acc ∨ always_save_checkpoint = true then val_acc else best

/-- `update_best` is precisely the accuracy component of
`eval_checkpoint_step` (consistency of the two embeddings). -/
theorem update_best_eq_eval_step (a : Bool) (b v : ℚ) (i : ℕ) (m o ma c : ℕ) :
    update_best a b v = (eval_checkpoint_step a b i v m o ma c).1 := by
  unfold update_best eval_checkpoint_step
  split
  · split <;> rfl
  · rfl

/-- The best accuracy after the conditional evaluation block of one loop
iteration: updated when `iter_num % eval_interval == 0 and master_process`,
unchanged otherwise. -/
def evalBest (cfg : LoopCfg) (val_acc_at : ℕ → ℚ) (s : LoopState) : ℚ :=
  if s.iter_num % cfg.eval_interval = 0 ∧ cfg.master_process = true then
    update_best cfg.always_save_checkpoint s.best_val_acc (val_acc_at s.iter_num)
  else s.best_val_acc

/-- One iteration of the `while True` loop (lines 311-387), with the parts
that do not affect control flow, `best_val_acc` or the optimizer-step count
abstracted away: evaluate/checkpoint when due, break right away if
`iter_num == 0 and eval_only`, otherwise perform the forward/backward and
optimizer step, increment `iter_num`, and break when
`iter_num > max_iters`.  Returns the new state and whether the loop broke. -/
def loop_body (cfg : LoopCfg) (val_acc_at : ℕ → ℚ) (s : LoopState) :
    LoopState × Bool :=
  let s₁ : LoopState := ⟨s.iter_num, evalBest cfg val_acc_at s, s.opt_steps⟩
  if s₁.iter_num = 0 ∧ cfg.eval_only = true then (s₁, true)
  else
    let s₂ : LoopState := ⟨s₁.iter_num + 1, s₁.best_val_acc, s₁.opt_steps + 1⟩
    if cfg.max_iters < s₂.iter_num then (s₂, true) else (s₂, false)

/-- Run the loop for at most `fuel` iterations; returns the final state and
the number of iterations executed (`fuel` bounds a loop that the claims
prove terminates earlier). -/
def run_loop (cfg : LoopCfg) (val_acc_at : ℕ → ℚ) : ℕ → LoopState → LoopState × ℕ
  | 0, s => (s, 0)
  | fuel + 1, s =>
    match loop_body cfg val_acc_at s with
    | (s₁, true) => (s₁, 1)
    | (s₁, false) =>
      let r := run_loop cfg val_acc_at fuel s₁
      (r.1, r.2 + 1)

/-- The validation accuracies measured at the evaluation steps the loop
actually executes, in order. -/
def observed_accs (cfg : LoopCfg) (val_acc_at : ℕ → ℚ) :
    ℕ → LoopState → List ℚ
  | 0, _ => []
  | fuel + 1, s =>
    let cur : List ℚ :=
      if s.iter_num % cfg.eval_interval = 0 ∧ cfg.master_process = true then
        [val_acc_at s.iter_num]
      else []
    match loop_body cfg val_acc_at s with
    | (_, true) => cur
    | (s₁, false) => cur ++ observed_accs cfg val_acc_at fuel s₁

/-- `return best_val_acc` (line 403): what `objective` returns is the final
`best_val_acc` of the loop. -/
def objective_result (cfg : LoopCfg) (val_acc_at : ℕ → ℚ) (fuel : ℕ)
    (s : LoopState) : ℚ :=
  (run_loop cfg val_acc_at fuel s).1.best_val_acc

/-- With `always_save_checkpoint = false` the best-accuracy update is `max`. -/
theorem update_best_false (b v : ℚ) : update_best false b v = max b v := by
  unfold update_best
  rcases le_or_lt v b with h | h
  · rw [if_neg (by simp [not_lt.mpr h])]
    exact (max_eq_left h).symm
  · rw [if_pos (Or.inl h)]
    exact (max_eq_right h.le).symm

/-- One loop iteration leaves `best_val_acc` at the evaluation block's
value. -/
theorem loop_body_best (cfg : LoopCfg) (a : ℕ → ℚ) (s : LoopState) :
    (loop_body cfg a s).1.best_val_acc = evalBest cfg a s := by
  simp only [loop_body]
  split
  · rfl
  · split <;> rfl

/-- With `eval_only = false`, a loop iteration that reaches `max_iters`
breaks after incrementing the counters. -/
theorem loop_body_eval_false_break (cfg : LoopCfg) (a : ℕ → ℚ) (s : LoopState)
    (h : cfg.eval_only = false) (hc : cfg.max_iters < s.iter_num + 1) :
    loop_body cfg a s =
      (⟨s.iter_num + 1, evalBest cfg a s, s.opt_steps + 1⟩, true) := by
  simp only [loop_body]
  rw [if_neg (by simp [h]), if_pos hc]

/-- With `eval_only = false`, a loop iteration strictly below `max_iters`
continues after incrementing the counters. -/
theorem loop_body_eval_false_cont (cfg : LoopCfg) (a : ℕ → ℚ) (s : LoopState)
    (h : cfg.eval_only = false) (hc : ¬ cfg.max_iters < s.iter_num + 1) :
    loop_body cfg a s =
      (⟨s.iter_num + 1, evalBest cfg a s, s.opt_steps + 1⟩, false) := by
  simp only [loop_body]
  rw [if_neg (by simp [h]), if_neg hc]

/-- Termination-and-count core: with `eval_only = false`, from any state not
past `max_iters` and enough fuel, the loop executes exactly
`max_iters + 1 - iter_num` iterations and ends with
`iter_num = max_iters + 1`. -/
theorem run_loop_count (cfg : LoopCfg) (a : ℕ → ℚ) (h : cfg.eval_only = false) :
    ∀ (fuel : ℕ) (s : LoopState), s.iter_num ≤ cfg.max_iters →
      cfg.max_iters + 1 - s.iter_num ≤ fuel →
      (run_loop cfg a fuel s).2 = cfg.max_iters + 1 - s.iter_num ∧
      (run_loop cfg a fuel s).1.iter_num = cfg.max_iters + 1 := by
  intro fuel
  induction fuel with
  | zero => intro s h1 h2; exact absurd h2 (by omega)
  | succ n ih =>
    intro s h1 h2
    by_cases hc : cfg.max_iters < s.iter_num + 1
    · have hiter : s.iter_num = cfg.max_iters := by omega
      simp only [run_loop, loop_body_eval_false_break cfg a s h hc]
      refine ⟨?_, ?_⟩
      · show 1 = cfg.max_iters + 1 - s.iter_num
        omega
      · show s.iter_num + 1 = cfg.max_iters + 1
        omega
    · have hlt : s.iter_num < cfg.max_iters := by omega
      have ih' := ih ⟨s.iter_num + 1, evalBest cfg a s, s.opt_steps + 1⟩
        (by show s.iter_num + 1 ≤ cfg.max_iters; omega)
        (by show cfg.max_iters + 1 - (s.iter_num + 1) ≤ n; omega)
      simp only [run_loop, loop_body_eval_false_cont cfg a s h hc]
      refine ⟨?_, ?_⟩
      · rw [ih'.1]
        show cfg.max_iters + 1 - (s.iter_num + 1) + 1 = cfg.max_iters + 1 - s.iter_num
        omega
      · exact ih'.2

/-- With `eval_only = true` and `iter_num = 0` the loop breaks after the
first iteration's evaluation, before any optimizer step. -/
theorem run_loop_eval_only (cfg : LoopCfg) (a : ℕ → ℚ) (s : LoopState)
    (fuel : ℕ) (h : cfg.eval_only = true) (h0 : s.iter_num = 0) :
    (run_loop cfg a (fuel + 1) s).2 = 1 ∧
    (run_loop cfg a (fuel + 1) s).1.opt_steps = s.opt_steps := by
  have hb : loop_body cfg a s = (⟨s.iter_num, evalBest cfg a s, s.opt_steps⟩, true) := by
    unfold loop_body
    rw [if_pos ⟨h0, h⟩]
  simp [run_loop, hb]

/-- The final best accuracy is the running maximum of the initial best and
every observed evaluation accuracy. -/
theorem run_loop_best (cfg : LoopCfg) (a : ℕ → ℚ)
    (hsave : cfg.always_save_checkpoint = false) :
    ∀ (fuel : ℕ) (s : LoopState),
      (run_loop cfg a fuel s).1.best_val_acc =
        List.foldl max s.best_val_acc (observed_accs cfg a fuel s) := by
  intro fuel
  induction fuel with
  | zero => intro s; rfl
  | succ n ih =>
    intro s
    rcases hlb : loop_body cfg a s with ⟨s₁, brk⟩
    have hbest : s₁.best_val_acc =
        List.foldl max s.best_val_acc
          (if s.iter_num % cfg.eval_interval = 0 ∧ cfg.master_process = true then
            [a s.iter_num] else []) := by
      have := loop_body_best cfg a s
      rw [hlb] at this
      rw [this, evalBest]
      by_cases hcond : s.iter_num % cfg.eval_interval = 0 ∧ cfg.master_process = true
      · rw [if_pos hcond, if_pos hcond, hsave, update_best_false]
        rfl
      · rw [if_neg hcond, if_neg hcond]
        rfl
    cases brk with
    | true =>
      simp only [run_loop, observed_accs, hlb]
      exact hbest
    | false =>
      simp only [run_loop, observed_accs, hlb]
      rw [ih s₁, List.foldl_append, hbest]

/-- C10: with `eval_only = false` and `max_iters` at least the initial
`iter_num`, the training loop terminates after exactly
`max_iters + 1 - iter_num` iterations, ending at `iter_num = max_iters + 1`;
with `eval_only = true` and `iter_num = 0` it exits after the first
iteration's evaluation without performing any optimizer step.
(`eval_interval > 0` reflects Python's `%`, which rejects a zero modulus.) -/
theorem loop_termination_count (cfg : LoopCfg) (acc : ℕ → ℚ) (s : LoopState)
    (hei : 0 < cfg.eval_interval) :
    (cfg.eval_only = false → ∀ fuel, s.iter_num ≤ cfg.max_iters →
      cfg.max_iters + 1 - s.iter_num ≤ fuel →
      (run_loop cfg acc fuel s).2 = cfg.max_iters + 1 - s.iter_num ∧
      (run_loop cfg acc fuel s).1.iter_num = cfg.max_iters + 1) ∧
    (cfg.eval_only = true → s.iter_num = 0 → ∀ fuel,
      (run_loop cfg acc (fuel + 1) s).2 = 1 ∧
      (run_loop cfg acc (fuel + 1) s).1.opt_steps = s.opt_steps) := by
  have _ := hei
  exact ⟨fun h fuel h1 h2 => run_loop_count cfg acc h fuel s h1 h2,
    fun h h0 fuel => run_loop_eval_only cfg acc s fuel h h0⟩

/-- A concrete loop configuration (evaluate every iteration, train to
`max_iters = 3`). -/
def cfgA : LoopCfg := ⟨1, false, false, true, 3⟩

/-- A concrete `eval_only` loop configuration. -/
def cfgB : LoopCfg := ⟨1, true, false, true, 5⟩

/-- A concrete accuracy trace. -/
def accW : ℕ → ℚ := fun i => (i : ℚ) / 7

/-- The loop's fresh starting state (lines 233-234). -/
def sW : LoopState := ⟨0, 0, 0⟩

/-- Witness for `loop_termination_count`: from iteration 0 with
`max_iters = 3` the loop runs exactly 4 iterations and stops at

`iter_num = 4`; an `eval_only` run stops after 1 iteration with no
optimizer step. -/
theorem loop_termination_count_witness :
    ((run_loop cfgA accW 4 sW).2 = 4 ∧ (run_loop cfgA accW 4 sW).1.iter_num = 4) ∧
    ((run_loop cfgB accW 6 sW).2 = 1 ∧ (run_loop cfgB accW 6 sW).1.opt_steps = 0) := by
  have hA := (loop_termination_count cfgA accW sW (by decide)).1 rfl 4
    (by decide) (by decide)
  have hB := (loop_termination_count cfgB accW sW (by decide)).2 rfl rfl 5
  exact ⟨⟨hA.1, hA.2⟩, ⟨hB.1, hB.2⟩⟩

/-- C9: with `always_save_checkpoint = false`, `best_val_acc` never
decreases across a loop iteration; after any number of iterations it equals
the maximum of its initial value and every validation accuracy observed at
the evaluation steps executed so far; and `objective` returns exactly the
final `best_val_acc`.  The initial state is arbitrary, covering both the
fresh start (`best_val_acc = 0`, lines 233-234) and a checkpoint resume.
(`eval_interval > 0` reflects Python's `%`, which rejects a zero modulus.) -/
theorem best_val_acc_invariant (cfg : LoopCfg) (acc : ℕ → ℚ) (s : LoopState)
    (fuel : ℕ) (hsave : cfg.always_save_checkpoint = false)
    (hei : 0 < cfg.eval_interval) :
    s.best_val_acc ≤ (loop_body cfg acc s).1.best_val_acc ∧
    (run_loop cfg acc fuel s).1.best_val_acc =
      List.foldl max s.best_val_acc (observed_accs cfg acc fuel s) ∧
    objective_result cfg acc fuel s = (run_loop cfg acc fuel s).1.best_val_acc := by
  have _ := hei
  refine ⟨?_, run_loop_best cfg acc hsave fuel s, rfl⟩
  rw [loop_body_best, evalBest]
  split
  · rw [hsave, update_best_false]
    exact le_max_left _ _
  · exact le_refl _

/-- Witness for `best_val_acc_invariant` on the concrete run `cfgA`. -/
theorem best_val_acc_invariant_witness :
    sW.best_val_acc ≤ (loop_body cfgA accW sW).1.best_val_acc ∧
    (run_loop cfgA accW 3 sW).1.best_val_acc =
      List.foldl max sW.best_val_acc (observed_accs cfgA accW 3 sW) ∧
    objective_result cfgA accW 3 sW = (run_loop cfgA accW 3 sW).1.best_val_acc :=
  best_val_acc_invariant cfgA accW sW 3 rfl (by decide)

end TrainOptuna
